import Mathlib

/-!
Shallow embedding of `src/main.cpp` (uni_equation_solver): an expression
parser/evaluator (`formula`) and six root-finding methods built on
finite-difference primitives.

Modelling conventions:
* C `double` is modelled by `Dbl`: an exact rational, a signed infinity, or
  NaN.  Rounding, overflow to infinity and the negative zero are not
  modelled (no claim depends on them); IEEE comparison semantics (every
  comparison with NaN is false) and the propagation of NaN/infinities
  through arithmetic are modelled.
* C standard library functions whose values are irrational in general
  (`sin`, `cos`, `tan`, `sqrt`, `cbrt`, `exp`, `log`, `log10`, `log2`,
  `pow`, `fmod`) are kept abstract as fields of a `CMath` environment;
  everything the repository itself defines is concrete.
* `std::cout` output is not modelled except for `report_approximation`,
  whose calls are collected in an explicit trace so that "reports nothing"
  and "does not iterate" are observable statements.
* The source iterates `std::unordered_map`s in `try_match_dictionary`.
  Iteration order is unspecified by C++; the dictionaries are modelled as
  association lists in the iteration order exhibited by libstdc++ (the
  standard library this C++20 source targets), observed as
  `// / - ^ % * +` for the binary operators — in particular `//` is
  tested before `/`.  For the function dictionary the order is irrelevant:
  no two entries can match at the same position because of the `"("`
  postfix.
-/

/-- Model of a C `double`: exact rational, signed infinity, or NaN. -/
inductive Dbl where
  | fin (q : ℚ)
  | inf (neg : Bool)
  | nan
  deriving DecidableEq, Repr

namespace Dbl

/-- IEEE addition (finite arithmetic exact; no overflow modelled). -/
def add : Dbl → Dbl → Dbl
  | nan, _ => nan
  | _, nan => nan
  | inf s, inf t => if s = t then inf s else nan
  | inf s, fin _ => inf s
  | fin _, inf t => inf t
  | fin a, fin b => fin (a + b)

/-- IEEE negation. -/
def neg : Dbl → Dbl
  | nan => nan
  | inf s => inf (!s)
  | fin a => fin (-a)

/-- IEEE subtraction. -/
def sub (a b : Dbl) : Dbl := add a (neg b)

/-- Sign bit used for multiplication/division: true iff negative. -/
def sgnbit : Dbl → Bool
  | nan => false
  | inf s => s
  | fin a => decide (a < 0)

/-- IEEE multiplication (`inf * 0 = nan`). -/
def mul : Dbl → Dbl → Dbl
  | nan, _ => nan
  | _, nan => nan
  | inf s, inf t => inf (xor s t)
  | inf s, fin b => if b = 0 then nan else inf (xor s (decide (b < 0)))
  | fin a, inf t => if a = 0 then nan else inf (xor (decide (a < 0)) t)
  | fin a, fin b => fin (a * b)

/-- IEEE division (`x/0 = ±inf` for `x ≠ 0`, `0/0 = nan`, `fin/inf = 0`). -/
def div : Dbl → Dbl → Dbl
  | nan, _ => nan
  | _, nan => nan
  | inf _, inf _ => nan
  | inf s, fin b => inf (xor s (decide (b < 0)))
  | fin _, inf _ => fin 0
  | fin a, fin b =>
    if b = 0 then (if a = 0 then nan else inf (decide (a < 0)))
    else fin (a / b)

/-- `std::abs` on doubles. -/
def absD : Dbl → Dbl
  | nan => nan
  | inf _ => inf false
  | fin a => fin |a|

/-- IEEE `==`: false whenever NaN is involved. -/
def beq : Dbl → Dbl → Bool
  | nan, _ => false
  | _, nan => false
  | inf s, inf t => s = t
  | fin a, fin b => decide (a = b)
  | _, _ => false

/-- IEEE `<=`: false whenever NaN is involved. -/
def leB : Dbl → Dbl → Bool
  | nan, _ => false
  | _, nan => false
  | inf true, _ => true
  | inf false, inf false => true
  | inf false, _ => false
  | fin _, inf t => !t
  | fin a, fin b => decide (a ≤ b)

/-- IEEE `<`: false whenever NaN is involved. -/
def ltB : Dbl → Dbl → Bool
  | nan, _ => false
  | _, nan => false
  | inf true, inf true => false
  | inf true, _ => true
  | inf false, _ => false
  | fin _, inf t => !t
  | fin a, fin b => decide (a < b)

/-- `std::copysign(a, b)`: magnitude of `a` with the sign of `b`.
(The sign bit of NaN is unobservable in this model; `copysign(a, nan)`
takes the positive sign, which no modelled code path depends on.) -/
def copysignD (a b : Dbl) : Dbl := if sgnbit b then (absD a).neg else absD a

/-- `trunc`: rounds toward zero; `trunc(±inf) = ±inf`, `trunc(nan) = nan`. -/
def truncD : Dbl → Dbl
  | nan => nan
  | inf s => inf s
  | fin a => fin ((a.num.tdiv a.den : ℤ) : ℚ)

/-- `std::max(a, b)` for doubles: `(a < b) ? b : a`. -/
def maxD (a b : Dbl) : Dbl := if ltB a b then b else a

end Dbl

open Dbl

/-- `DBL_EPSILON = 2^-52`. -/
def epsD : Dbl := Dbl.fin (1 / 2 ^ 52)

/-- `const double h = 0.01;` (line 22). -/
def hD : Dbl := Dbl.fin (1 / 100)

/-- `sign` (lines 23–28): NaN for NaN input, else
`copysign(1, x) * (x != 0)`, i.e. `+1`/`-1`/`0`. -/
def sign (x : Dbl) : Dbl :=
  match x with
  | Dbl.nan => Dbl.nan
  | Dbl.inf s => Dbl.fin (if s then -1 else 1)
  | Dbl.fin a => Dbl.fin (if a < 0 then -1 else if a = 0 then 0 else 1)

/-- `get_second_difference` (lines 33–36): `f(x+h) - 2 f(x) + f(x-h)`. -/
def get_second_difference (f : Dbl → Dbl) (x : Dbl) : Dbl :=
  sub (add x hD |> f) (mul (Dbl.fin 2) (f x)) |>.add (f (sub x hD))

/-- `sign_matches` (lines 37–40): `copysign(a, b) == a`. -/
def sign_matches (a b : Dbl) : Bool := beq (copysignD a b) a

/-- `finite_difference_derivative` (lines 41–44):
`(f(x+h) - f(x-h)) / (2h)`. -/
def finite_difference_derivative (f : Dbl → Dbl) (x : Dbl) : Dbl :=
  div (sub (f (add x hD)) (f (sub x hD))) (mul (Dbl.fin 2) hD)

/-- `finite_difference_second_derivative` (lines 45–48):
second difference divided by `2h` (not `h²`). -/
def finite_difference_second_derivative (f : Dbl → Dbl) (x : Dbl) : Dbl :=
  div (get_second_difference f x) (mul (Dbl.fin 2) hD)

/-- `isinfnan` (lines 49–52). -/
def isinfnan : Dbl → Bool
  | Dbl.fin _ => false
  | _ => true

/-- `estimate_root` (lines 53–57): first minimum of `{x1, x2, mid}` under
the projection `|f(·)|`, as computed by `std::ranges::min` (the running
minimum is replaced only on strict `<`). -/
def estimate_root (f : Dbl → Dbl) (x1 x2 : Dbl) : Dbl :=
  let mid := div (add x1 x2) (Dbl.fin 2)
  let m1 := x1
  let m2 := if ltB (absD (f x2)) (absD (f m1)) then x2 else m1
  if ltB (absD (f mid)) (absD (f m2)) then mid else m2

/-- One `report_approximation` call: `(step, x, y)`. -/
structure Report where
  step : ℕ
  x : Dbl
  y : Dbl
  deriving DecidableEq, Repr

/-!
Root-finding methods (lines 59–244).  Each `while (true)` loop is modelled
by a structurally recursive function on the remaining step budget
(`fuel = max_steps - step`); the second `ℕ` argument is the current value
of the C++ `step` counter, used only for the report indices.  Every method
returns the result `double` together with the list of
`report_approximation` calls made, in order.
-/

/-- Loop of `run_secant_method` (lines 63–83). -/
def secantLoop (f : Dbl → Dbl) (prec : Dbl) :
    ℕ → ℕ → Dbl → Dbl → Dbl × List Report
  | 0, _, _, _ => (Dbl.nan, [])
  | fuel + 1, stp, x1, x2 =>
    let f1 := f x1
    let f2 := f x2
    let dx := div (mul (f x1) (sub x2 x1)) (sub f2 f1)
    let x3 := sub x1 dx
    let rep : Report := ⟨stp + 1, x3, f x3⟩
    if isinfnan x3 then (Dbl.nan, [rep])
    else if leB (absD dx) (div prec (Dbl.fin 2)) then (x3, [rep])
    else
      let r := secantLoop f prec fuel (stp + 1) x2 x3
      (r.1, rep :: r.2)

/-- `run_secant_method` (lines 59–84). -/
def run_secant_method (f : Dbl → Dbl) (prec x1 x2 : Dbl) (max_steps : ℕ) :
    Dbl × List Report :=
  secantLoop f prec max_steps 0 x1 x2

/-- Loop of `run_chord_method` (lines 92–111). -/
def chordLoop (f : Dbl → Dbl) (prec : Dbl) :
    ℕ → ℕ → Dbl → Dbl → Dbl × List Report
  | 0, _, _, _ => (Dbl.nan, [])
  | fuel + 1, stp, x1, x2 =>
    let f1 := f x1
    let f2 := f x2
    let dx := div (mul (f x2) (sub x2 x1)) (sub f2 f1)
    let x3 := sub x2 dx
    let rep : Report := ⟨stp + 1, x3, f x3⟩
    if isinfnan x3 then (Dbl.nan, [rep])
    else if leB (absD dx) (div prec (Dbl.fin 2)) then (x3, [rep])
    else
      let r := chordLoop f prec fuel (stp + 1) x1 x3
      (r.1, rep :: r.2)

/-- `run_chord_method` (lines 85–112): the fixed endpoint is chosen once by
the `sign_matches` test, then the loop runs. -/
def run_chord_method (f : Dbl → Dbl) (prec x1 x2 : Dbl) (max_steps : ℕ) :
    Dbl × List Report :=
  if !(sign_matches (f x1) (get_second_difference f x1)) then
    chordLoop f prec max_steps 0 x2 x1
  else
    chordLoop f prec max_steps 0 x1 x2

/-- Outcome of one dichotomy loop iteration: either a returned value or the
next bracketing pair. -/
inductive DichoStep where
  | done (v : Dbl)
  | next (x1 x2 : Dbl)
  deriving DecidableEq, Repr

/-- Body of the dichotomy `while (true)` loop (lines 129–154), minus the
step-budget check: computes the midpoint, returns it if the interval is
short enough or the midpoint value has sign `0`, otherwise replaces the
endpoint whose function value has the same sign as the midpoint value
(`+1` replaces `x1`, `-1` replaces `x2`), returning NaN on any other sign
(i.e. NaN from `sign`).  `stp` is the already-incremented step counter
used in the report. -/
def dichotomy_step (f : Dbl → Dbl) (prec : Dbl) (stp : ℕ) (x1 x2 : Dbl) :
    DichoStep × List Report :=
  let mid := div (add x1 x2) (Dbl.fin 2)
  let length := absD (sub x2 x1)
  if leB length prec then (.done mid, [])
  else
    let mid_val := f mid
    let rep : Report := ⟨stp, mid, mid_val⟩
    let mid_sign := sign mid_val
    if beq mid_sign (Dbl.fin 0) then (.done mid, [rep])
    else if beq mid_sign (Dbl.fin 1) then (.next mid x2, [rep])
    else if beq mid_sign (Dbl.fin (-1)) then (.next x1 mid, [rep])
    else (.done Dbl.nan, [rep])

/-- The dichotomy loop: budget check, then `dichotomy_step`. -/
def dichotomyLoop (f : Dbl → Dbl) (prec : Dbl) :
    ℕ → ℕ → Dbl → Dbl → Dbl × List Report
  | 0, _, _, _ => (Dbl.nan, [])
  | fuel + 1, stp, x1, x2 =>
    match dichotomy_step f prec (stp + 1) x1 x2 with
    | (.done v, tr) => (v, tr)
    | (.next a b, tr) =>
      let r := dichotomyLoop f prec fuel (stp + 1) a b
      (r.1, tr ++ r.2)

/-- `run_dichotomy_method` (lines 113–155): endpoint sign checks and the
arranging swap (`s1 != 1`, IEEE `!=`), then the loop. -/
def run_dichotomy_method (f : Dbl → Dbl) (prec x1 x2 : Dbl)
    (max_steps : ℕ) : Dbl × List Report :=
  let s1 := sign (f x1)
  let s2 := sign (f x2)
  if beq s1 (Dbl.fin 0) then (x1, [])
  else if beq s2 (Dbl.fin 0) then (x2, [])
  else if beq s1 s2 then (Dbl.nan, [])
  else if !(beq s1 (Dbl.fin 1)) then dichotomyLoop f prec max_steps 0 x2 x1
  else dichotomyLoop f prec max_steps 0 x1 x2

/-- Loop of `run_newthon_method` (lines 160–176). -/
def newthonLoop (f : Dbl → Dbl) (prec : Dbl) :
    ℕ → ℕ → Dbl → Dbl × List Report
  | 0, _, _ => (Dbl.nan, [])
  | fuel + 1, stp, x =>
    if isinfnan x then (Dbl.nan, [])
    else
      let dx := div (f x) (finite_difference_derivative f x)
      let x' := sub x dx
      let rep : Report := ⟨stp + 1, x', f x'⟩
      if leB (absD dx) (div prec (Dbl.fin 2)) then (x', [rep])
      else if isinfnan x' then (Dbl.nan, [rep])
      else
        let r := newthonLoop f prec fuel (stp + 1) x'
        (r.1, rep :: r.2)

/-- `run_newthon_method` (lines 156–177). -/
def run_newthon_method (f : Dbl → Dbl) (prec x : Dbl) (max_steps : ℕ) :
    Dbl × List Report :=
  newthonLoop f prec max_steps 0 x

/-- Loop of `run_halley_method` (lines 182–201). -/
def halleyLoop (f : Dbl → Dbl) (prec : Dbl) :
    ℕ → ℕ → Dbl → Dbl × List Report
  | 0, _, _ => (Dbl.nan, [])
  | fuel + 1, stp, x =>
    if isinfnan x then (Dbl.nan, [])
    else
      let dfdx := finite_difference_derivative f x
      let a := div (f x) dfdx
      let b := sub (Dbl.fin 1)
        (div (mul a (finite_difference_second_derivative f x))
          (mul (Dbl.fin 2) dfdx))
      let dx := div a b
      let x' := sub x dx
      let rep : Report := ⟨stp + 1, x', f x'⟩
      if leB (absD dx) (div prec (Dbl.fin 2)) then (x', [rep])
      else if isinfnan x' then (Dbl.nan, [rep])
      else
        let r := halleyLoop f prec fuel (stp + 1) x'
        (r.1, rep :: r.2)

/-- `run_halley_method` (lines 178–202). -/
def run_halley_method (f : Dbl → Dbl) (prec x : Dbl) (max_steps : ℕ) :
    Dbl × List Report :=
  halleyLoop f prec max_steps 0 x

/-- Loop of `run_simple_iterations_method` (lines 230–243): note the
strict `<` in the precision test and that the report carries `y = f(x)`
for the pre-update `x`. -/
def simpleIterLoop (f : Dbl → Dbl) (prec lam : Dbl) :
    ℕ → ℕ → Dbl → Dbl × List Report
  | 0, _, _ => (Dbl.nan, [])
  | fuel + 1, stp, x =>
    if isinfnan x then (Dbl.nan, [])
    else
      let y := f x
      let dx := mul lam y
      let x' := sub x dx
      let rep : Report := ⟨stp + 1, x', y⟩
      if ltB (absD dx) (div prec (Dbl.fin 2)) then (x', [rep])
      else
        let r := simpleIterLoop f prec lam fuel (stp + 1) x'
        (r.1, rep :: r.2)

/-- `run_simple_iterations_method` (lines 203–244): rejects alternating
derivative signs (IEEE `!=`), returns NaN when the maximal absolute
derivative is zero, otherwise fixes `λ`, picks the starting point by
`estimate_root`, reports it as step 0, and iterates. -/
def run_simple_iterations_method (f : Dbl → Dbl) (prec x1 x2 : Dbl)
    (max_steps : ℕ) : Dbl × List Report :=
  let dfdx1 := finite_difference_derivative f x1
  let dfdx2 := finite_difference_derivative f x2
  if !(beq (sign dfdx1) (sign dfdx2)) then (Dbl.nan, [])
  else
    let adfdx1 := copysignD dfdx1 (Dbl.fin 1)
    let adfdx2 := copysignD dfdx2 (Dbl.fin 1)
    let max_derivative := maxD adfdx1 adfdx2
    if beq max_derivative (Dbl.fin 0) then (Dbl.nan, [])
    else
      let lam := div (copysignD (Dbl.fin 1) dfdx1) max_derivative
      let x := estimate_root f x1 x2
      let rep0 : Report := ⟨0, x, f x⟩
      let r := simpleIterLoop f prec lam max_steps 0 x
      (r.1, rep0 :: r.2)

/-!
Expression parser/evaluator (lines 275–624).  The `parse_context` pointers
`p`/`pe` become a `ℕ` position into the fixed character list; `arg` and
`dry` never change during a parse and live in `PCtx`.  Each parse function
returns its C++ `bool` result, the value of the `var` out-parameter, the
final cursor position, and the list of actual function/operator
invocations performed (including those inside alternatives that were later
backtracked) — the trace that the dry-mode claims are about.

The mutual recursion of the C++ parser terminates because the position
advances across every `parse_expression` cycle; it is modelled with an
explicit fuel argument decremented on every nested call, which is an upper
bound on call depth only and does not change what any terminating parse
returns when the fuel is large enough (the concrete top-level fuel
`parseFuel` suffices for every input the claims evaluate).
-/

/-- Abstract environment for the C math library functions used in the
function/operator tables whose exact values are irrational in general. -/
structure CMath where
  sin : Dbl → Dbl
  cos : Dbl → Dbl
  tan : Dbl → Dbl
  sqrt : Dbl → Dbl
  cbrt : Dbl → Dbl
  exp : Dbl → Dbl
  log : Dbl → Dbl
  log10 : Dbl → Dbl
  log2 : Dbl → Dbl
  pow : Dbl → Dbl → Dbl
  fmod : Dbl → Dbl → Dbl

/-- Tags for the entries of the `functions` dictionary (lines 347–360);
the C++ table maps names to function pointers, compared by address, so a
closed enumeration is a faithful rendering. -/
inductive FuncId where
  | sinF | cosF | tanF | ctgF | sqrtF | cbrtF | sqrF | absF
  | expF | lnF | lgF | log2F
  deriving DecidableEq, Repr

/-- The behavior attached to each function-table entry: `ctg` is the
lambda `1 / tan(x)`, `sqr` is the lambda `x * x`, `abs` is `std::abs`;
the rest are the C library functions. -/
def applyFunc (env : CMath) : FuncId → Dbl → Dbl
  | .sinF, x => env.sin x
  | .cosF, x => env.cos x
  | .tanF, x => env.tan x
  | .ctgF, x => div (Dbl.fin 1) (env.tan x)
  | .sqrtF, x => env.sqrt x
  | .cbrtF, x => env.cbrt x
  | .sqrF, x => mul x x
  | .absF, x => absD x
  | .expF, x => env.exp x
  | .lnF, x => env.log x
  | .lgF, x => env.log10 x
  | .log2F, x => env.log2 x

/-- Tags for the binary operators (lines 449–455), again rendering the
C++ function pointers as a closed enumeration. -/
inductive BinOp where
  | plus | minus | mulOp | divOp | divInt | remOp | powOp
  deriving DecidableEq, Repr

/-- `op_plus` … `op_power` (lines 449–455); `op_divide_integer` is
`trunc(a / b * (1 + 2 * DBL_EPSILON))`. -/
def BinOp.apply (env : CMath) : BinOp → Dbl → Dbl → Dbl
  | .plus, a, b => add a b
  | .minus, a, b => sub a b
  | .mulOp, a, b => mul a b
  | .divOp, a, b => div a b
  | .divInt, a, b =>
    truncD (mul (div a b) (add (Dbl.fin 1) (mul (Dbl.fin 2) epsD)))
  | .remOp, a, b => env.fmod a b
  | .powOp, a, b => env.pow a b

/-- The `operator_precedence` table (lines 462–470). -/
def operator_precedence : BinOp → ℕ
  | .plus => 1
  | .minus => 1
  | .mulOp => 2
  | .divOp => 2
  | .divInt => 2
  | .remOp => 2
  | .powOp => 3

/-- `takes_precedence` (lines 457–473): power always takes precedence;
otherwise compare table priorities strictly. -/
def takes_precedence (op1 op2 : BinOp) : Bool :=
  if op1 = .powOp then true
  else operator_precedence op1 > operator_precedence op2

/-- The `binary_operators` dictionary (lines 477–485) in the libstdc++
iteration order (see the header comment): `//` is tested before `/`. -/
def binary_operators : List (List Char × BinOp) :=
  [(['/', '/'], .divInt), (['/'], .divOp), (['-'], .minus),
   (['^'], .powOp), (['%'], .remOp), (['*'], .mulOp), (['+'], .plus)]

/-- The `functions` dictionary (lines 347–360) in the libstdc++ iteration
order; since every entry is matched together with the `"("` postfix, no
two entries can match at the same position and the order is irrelevant. -/
def functions : List (List Char × FuncId) :=
  [(['e', 'x', 'p'], .expF), (['l', 'n'], .lnF), (['a', 'b', 's'], .absF),
   (['l', 'o', 'g', '2'], .log2F), (['s', 'q', 'r'], .sqrF),
   (['l', 'g'], .lgF), (['c', 'b', 'r', 't'], .cbrtF),
   (['c', 't', 'g'], .ctgF), (['t', 'a', 'n'], .tanF),
   (['s', 'q', 'r', 't'], .sqrtF), (['c', 'o', 's'], .cosF),
   (['s', 'i', 'n'], .sinF)]

/-- One actual invocation of a function-table function or of a
binary-operator function during a parse. -/
inductive Event where
  | funApp (fid : FuncId) (arg : Dbl)
  | binApp (op : BinOp) (a b : Dbl)
  deriving DecidableEq, Repr

/-- The constant part of `parse_context` (lines 278–287): the text, the
argument bound to `x`, and the dry flag. -/
structure PCtx where
  env : CMath
  s : List Char
  arg : Dbl
  dry : Bool

/-- Result of a parse function: the C++ `bool` return, the `var`
out-parameter (meaningful only when `ok`), the final cursor position, and
the invocation trace. -/
structure PRes where
  ok : Bool
  val : Dbl
  pos : ℕ
  evs : List Event
  deriving DecidableEq, Repr

/-- `try_match_dictionary` (lines 294–320): scan the dictionary in
iteration order; an entry matches when enough characters remain and the
key followed by the postfix is the text at the cursor, which is then
consumed. -/
def try_match_dictionary {α : Type} (dict : List (List Char × α))
    (s : List Char) (pos : ℕ) (post : List Char) : Option (α × ℕ) :=
  match dict with
  | [] => none
  | (key, value) :: rest =>
    if s.length - pos < key.length + post.length then
      try_match_dictionary rest s pos post
    else if (s.drop pos).take key.length = key
        ∧ ((s.drop pos).drop key.length).take post.length = post then
      some (value, pos + (key.length + post.length))
    else
      try_match_dictionary rest s pos post

/-- Numeric value of a decimal digit. -/
def digitVal (c : Char) : ℕ := c.toNat - '0'.toNat

/-- Longest digit prefix: accumulated value and number of digits. -/
def scanDigits : List Char → ℕ → ℕ → ℕ × ℕ
  | [], acc, cnt => (acc, cnt)
  | c :: rest, acc, cnt =>
    if c.isDigit then scanDigits rest (10 * acc + digitVal c) (cnt + 1)
    else (acc, cnt)

/-- Exponent part of a decimal literal: `e`/`E`, optional sign, digits;
consumed only when at least one digit follows. -/
def scanExponent (l : List Char) : ℤ × ℕ :=
  match l with
  | [] => (0, 0)
  | c :: rest =>
    if c = 'e' ∨ c = 'E' then
      match rest with
      | '+' :: rest2 =>
        let d := scanDigits rest2 0 0
        if d.2 = 0 then (0, 0) else ((d.1 : ℤ), d.2 + 2)
      | '-' :: rest2 =>
        let d := scanDigits rest2 0 0
        if d.2 = 0 then (0, 0) else (-(d.1 : ℤ), d.2 + 2)
      | _ =>
        let d := scanDigits rest 0 0
        if d.2 = 0 then (0, 0) else ((d.1 : ℤ), d.2 + 1)
    else (0, 0)

/-- Model of `std::from_chars(p, pe, double)` (line 326): the longest
prefix matching the decimal floating literal pattern — optional minus, a
nonempty digit sequence optionally containing a decimal point, optional
exponent.  Values are exact rationals (decimal-to-binary rounding is not
modelled); the hexfloat and the `inf`/`nan` spellings are not modelled (no
expression any claim evaluates contains them).  Returns the value and the
number of characters consumed, or `none` (cursor unmoved) on no match. -/
def fromCharsD (l : List Char) : Option (ℚ × ℕ) :=
  let sgn : Bool × List Char × ℕ :=
    match l with
    | '-' :: rest => (true, rest, 1)
    | _ => (false, l, 0)
  let ipart := scanDigits sgn.2.1 0 0
  let l2 := sgn.2.1.drop ipart.2
  let fpart : ℕ × ℕ × ℕ :=
    match l2 with
    | '.' :: rest =>
      let d := scanDigits rest 0 0
      (d.1, d.2, d.2 + 1)
    | _ => (0, 0, 0)
  if ipart.2 + fpart.2.1 = 0 then none
  else
    let l3 := l2.drop fpart.2.2
    let epart := scanExponent l3
    let mant : ℚ := (ipart.1 : ℚ) + (fpart.1 : ℚ) / 10 ^ fpart.2.1
    let value : ℚ := (if sgn.1 then -mant else mant) * 10 ^ epart.1
    some (value, sgn.2.2 + ipart.2 + fpart.2.2 + epart.2)

/-- `try_parse_literal` (lines 322–329). -/
def try_parse_literal (P : PCtx) (pos : ℕ) : PRes :=
  match fromCharsD (P.s.drop pos) with
  | some (q, c) => ⟨true, Dbl.fin q, pos + c, []⟩
  | none => ⟨false, Dbl.fin 0, pos, []⟩

/-- `try_parse_variable` (lines 330–342): the single letter `x`. -/
def try_parse_variable (P : PCtx) (pos : ℕ) : PRes :=
  match P.s.drop pos with
  | [] => ⟨false, Dbl.fin 0, pos, []⟩
  | c :: _ =>
    if c = 'x' then ⟨true, P.arg, pos + 1, []⟩
    else ⟨false, Dbl.fin 0, pos, []⟩

/-- `is_unary_operator` (lines 384–387). -/
def is_unary_operator (c : Char) : Bool := c = '+' ∨ c = '-'

mutual

/-- `try_parse_function` (lines 343–383): longest-exact-prefix function
name plus `(`, a full sub-expression, a matching `)`; in dry mode the
result is the placeholder `0` and the function is not invoked. -/
def try_parse_function (P : PCtx) (fuel : ℕ) (pos : ℕ) : PRes :=
  match fuel with
  | 0 => ⟨false, Dbl.fin 0, pos, []⟩
  | fuel + 1 =>
    match try_match_dictionary functions P.s pos ['('] with
    | none => ⟨false, Dbl.fin 0, pos, []⟩
    | some (fid, pos1) =>
      let r := parse_expression P fuel pos1
      if !r.ok then ⟨false, Dbl.fin 0, r.pos, r.evs⟩
      else
        match P.s.drop r.pos with
        | ')' :: _ =>
          if P.dry then ⟨true, Dbl.fin 0, r.pos + 1, r.evs⟩
          else ⟨true, applyFunc P.env fid r.val, r.pos + 1,
            r.evs ++ [Event.funApp fid r.val]⟩
        | _ => ⟨false, Dbl.fin 0, r.pos, r.evs⟩

/-- `try_parse_unary_expr` (lines 388–405): a `+`/`-` sign followed by a
full expression; `-` negates the parsed value. -/
def try_parse_unary_expr (P : PCtx) (fuel : ℕ) (pos : ℕ) : PRes :=
  match fuel with
  | 0 => ⟨false, Dbl.fin 0, pos, []⟩
  | fuel + 1 =>
    match P.s.drop pos with
    | [] => ⟨false, Dbl.fin 0, pos, []⟩
    | c :: _ =>
      if is_unary_operator c then
        let r := parse_expression P fuel (pos + 1)
        ⟨r.ok, if r.ok && c = '-' then Dbl.neg r.val else r.val, r.pos,
          r.evs⟩
      else ⟨false, Dbl.fin 0, pos, []⟩

/-- `try_parse_nested_expression` (lines 406–418): `(`, expression, `)`.
(The C++ reads `*cntxt.p` without an end check at the closing-paren test;
the byte at `pe` is the string's null terminator, which is not `)`, so
end-of-input is a mismatch — modelled directly as a mismatch.) -/
def try_parse_nested_expression (P : PCtx) (fuel : ℕ) (pos : ℕ) : PRes :=
  match fuel with
  | 0 => ⟨false, Dbl.fin 0, pos, []⟩
  | fuel + 1 =>
    match P.s.drop pos with
    | '(' :: _ =>
      let r := parse_expression P fuel (pos + 1)
      if !r.ok then ⟨false, r.val, r.pos, r.evs⟩
      else
        match P.s.drop r.pos with
        | ')' :: _ => ⟨true, r.val, r.pos + 1, r.evs⟩
        | _ => ⟨false, r.val, r.pos, r.evs⟩
    | _ => ⟨false, Dbl.fin 0, pos, []⟩

/-- `try_parse_operand` (lines 419–440): literal, variable, function
call, parenthesized sub-expression, in that order; the cursor is restored
after each failed alternative except the last.  The traces of failed
alternatives are kept: those invocations did happen (`try_parse_literal`
and `try_parse_variable` never invoke anything, so only the last two
alternatives contribute). -/
def try_parse_operand (P : PCtx) (fuel : ℕ) (pos : ℕ) : PRes :=
  match fuel with
  | 0 => ⟨false, Dbl.fin 0, pos, []⟩
  | fuel + 1 =>
    let r1 := try_parse_literal P pos
    if r1.ok then r1
    else
      let r2 := try_parse_variable P pos
      if r2.ok then r2
      else
        let r3 := try_parse_function P fuel pos
        if r3.ok then r3
        else
          let r4 := try_parse_nested_expression P fuel pos
          if r4.ok then ⟨true, r4.val, r4.pos, r3.evs ++ r4.evs⟩
          else ⟨false, r4.val, r4.pos, r3.evs ++ r4.evs⟩

/-- `try_parse_binary_expr` (lines 475–539), entry: with no pending
operand, parse the first operand; a lone operand before end-of-input or
`)` is a successful binary expression; otherwise match the following
operator and continue as `binary_tail`. -/
def try_parse_binary_expr (P : PCtx) (fuel : ℕ)
    (op1? : Option (Dbl × BinOp)) (pos : ℕ) : PRes :=
  match fuel with
  | 0 => ⟨false, Dbl.fin 0, pos, []⟩
  | fuel + 1 =>
    match op1? with
    | some (v1, op) => binary_tail P fuel v1 op pos
    | none =>
      let r1 := try_parse_operand P fuel pos
      if !r1.ok then ⟨false, r1.val, r1.pos, r1.evs⟩
      else
        match P.s.drop r1.pos with
        | [] => ⟨true, r1.val, r1.pos, r1.evs⟩
        | ')' :: _ => ⟨true, r1.val, r1.pos, r1.evs⟩
        | _ =>
          match try_match_dictionary binary_operators P.s r1.pos [] with
          | none => ⟨false, r1.val, r1.pos, r1.evs⟩
          | some (op, pos2) =>
            let r := binary_tail P fuel r1.val op pos2
            ⟨r.ok, r.val, r.pos, r1.evs ++ r.evs⟩

/-- Lines 509–538 of `try_parse_binary_expr`: the code executed with a
pending `(value, operator)` pair.  At end-of-input or `)` the pending pair
is reduced — with the placeholder `0` instead in dry mode.  When a further
operator follows: if it outranks the pending one, the rest is parsed first
and the pending operator is applied to the first operand and that rest
(line 531 — applied with no dry-mode guard); otherwise the pending pair is
reduced immediately (line 536 — also with no dry-mode guard) and the loop
continues by recursion with the reduced value. -/
def binary_tail (P : PCtx) (fuel : ℕ) (v1 : Dbl) (op : BinOp) (pos : ℕ) :
    PRes :=
  match fuel with
  | 0 => ⟨false, Dbl.fin 0, pos, []⟩
  | fuel + 1 =>
    let r2 := try_parse_operand P fuel pos
    if !r2.ok then ⟨false, r2.val, r2.pos, r2.evs⟩
    else
      let atEnd : Bool :=
        match P.s.drop r2.pos with
        | [] => true
        | ')' :: _ => true
        | _ => false
      if atEnd then
        if P.dry then ⟨true, Dbl.fin 0, r2.pos, r2.evs⟩
        else ⟨true, BinOp.apply P.env op v1 r2.val, r2.pos,
          r2.evs ++ [Event.binApp op v1 r2.val]⟩
      else
        match try_match_dictionary binary_operators P.s r2.pos [] with
        | none => ⟨false, r2.val, r2.pos, r2.evs⟩
        | some (op2, pos3) =>
          if takes_precedence op2 op then
            let r3 := try_parse_binary_expr P fuel (some (r2.val, op2)) pos3
            if !r3.ok then ⟨false, r3.val, r3.pos, r2.evs ++ r3.evs⟩
            else ⟨true, BinOp.apply P.env op v1 r3.val, r3.pos,
              r2.evs ++ r3.evs ++ [Event.binApp op v1 r3.val]⟩
          else
            let v2 := BinOp.apply P.env op v1 r2.val
            let r3 := try_parse_binary_expr P fuel (some (v2, op2)) pos3
            ⟨r3.ok, r3.val, r3.pos,
              r2.evs ++ [Event.binApp op v1 r2.val] ++ r3.evs⟩

/-- `parse_expression` (lines 541–561): fail on empty input, then try the
binary-expression, function-call and unary alternatives in that order,
restoring the cursor after a failed alternative (except, as in the source,
after the last one). -/
def parse_expression (P : PCtx) (fuel : ℕ) (pos : ℕ) : PRes :=
  match fuel with
  | 0 => ⟨false, Dbl.fin 0, pos, []⟩
  | fuel + 1 =>
    if (P.s.drop pos).isEmpty then ⟨false, Dbl.fin 0, pos, []⟩
    else
      let r1 := try_parse_binary_expr P fuel none pos
      if r1.ok then r1
      else
        let r2 := try_parse_function P fuel pos
        if r2.ok then ⟨true, r2.val, r2.pos, r1.evs ++ r2.evs⟩
        else
          let r3 := try_parse_unary_expr P fuel pos
          ⟨r3.ok, r3.val, r3.pos, r1.evs ++ r2.evs ++ r3.evs⟩

end

/-- `std::isblank` in the default locale: space or horizontal tab. -/
def isblankC (c : Char) : Bool := c = ' ' ∨ c = '\t'

/-- `formula::formula` (lines 563–571): `m_expr` is the expression text
with all blank characters removed. -/
def mkFormula (expression : List Char) : List Char :=
  expression.filter (fun c => !isblankC c)

/-- The parenthesis scan of `formula::validate` (lines 575–588): the index
of the first character that drives the nesting depth negative (necessarily
a `)`), if any, threading the current depth. -/
def findUnexpectedClose : List Char → ℤ → Option ℕ
  | [], _ => none
  | c :: rest, depth =>
    let depth' := depth + (if c = '(' then 1 else 0)
      - (if c = ')' then 1 else 0)
    if depth' < 0 then some 0
    else (findUnexpectedClose rest depth').map (· + 1)

/-- The final nesting depth of the whole text (line 589). -/
def parenDepth (l : List Char) : ℤ :=
  l.foldl
    (fun d c => d + (if c = '(' then 1 else 0) - (if c = ')' then 1 else 0))
    0

/-- Top-level fuel: a bound on the parser's call-stack depth, which grows
by at most a constant per consumed character (each cycle back to
`parse_expression` consumes at least one character). -/
def parseFuel (l : List Char) : ℕ := 8 * l.length + 8

/-- Result of `formula::validate`: the `bool` return, `err_msg`,
`err_pos` as an index into `m_expr` (the C++ pointer into the stored
text; index `m_expr.length` is the end-of-string pointer), and the
invocation trace of the dry parse. -/
structure VRes where
  ok : Bool
  err_msg : String
  err_pos : ℕ
  evs : List Event

/-- `formula::validate` (lines 573–607): parenthesis-balance scan with
precise error positions, then a full parse in dry mode; `error_message`
is never written by the parser, so a failed dry parse always reports
`"failed to classify token sequence"` at the final cursor position. -/
def validate (env : CMath) (m_expr : List Char) : VRes :=
  match findUnexpectedClose m_expr 0 with
  | some i => ⟨false, "unexpected ')'", i, []⟩
  | none =>
    if parenDepth m_expr ≠ 0 then
      ⟨false, "no ')' to match '('", m_expr.length, []⟩
    else
      let P : PCtx := ⟨env, m_expr, Dbl.nan, true⟩
      let r := parse_expression P (parseFuel m_expr) 0
      ⟨r.ok, if r.ok then "" else "failed to classify token sequence",
        r.pos, r.evs⟩

/-- `formula::operator()` (lines 610–619): re-parse in non-dry mode with
the variable bound to `x`.  The initial `result` bit pattern
`0xFFFFFFFFFFFFFFFF` is a NaN, and the parser writes its out-parameter
only on paths that return success, so a failed parse leaves the NaN. -/
def evalFormula (env : CMath) (m_expr : List Char) (x : Dbl) : Dbl :=
  let P : PCtx := ⟨env, m_expr, x, false⟩
  let r := parse_expression P (parseFuel m_expr) 0
  if r.ok then r.val else Dbl.nan

/-- Whether an event is an invocation of a function-table function. -/
def Event.isFunApp : Event → Bool
  | .funApp _ _ => true
  | .binApp _ _ _ => false

/-!
Concrete instantiations used by witnesses: an arbitrary `CMath`
environment whose `pow` is exact on natural-number exponents (as the C
`pow` is on every input any claim evaluates). -/

/-- A concrete `pow`: exact integer power for finite bases and
natural-number exponents, NaN elsewhere (sufficient for every witness). -/
def powIntStub : Dbl → Dbl → Dbl
  | Dbl.fin a, Dbl.fin b =>
    if b.den = 1 ∧ 0 ≤ b.num then Dbl.fin (a ^ b.num.toNat) else Dbl.nan
  | _, _ => Dbl.nan

/-- A concrete `CMath` environment for witnesses. -/
def stubMath : CMath where
  sin := fun _ => Dbl.nan
  cos := fun _ => Dbl.nan
  tan := fun _ => Dbl.nan
  sqrt := fun _ => Dbl.nan
  cbrt := fun _ => Dbl.nan
  exp := fun _ => Dbl.nan
  log := fun _ => Dbl.nan
  log10 := fun _ => Dbl.nan
  log2 := fun _ => Dbl.nan
  pow := powIntStub
  fmod := fun _ _ => Dbl.nan

/-- Specification-side nesting depth: number of `(` minus number of `)`
among the first `i` characters. -/
def prefixDepth : List Char → ℕ → ℤ
  | _, 0 => 0
  | [], _ + 1 => 0
  | c :: rest, i + 1 =>
    (if c = '(' then 1 else 0) - (if c = ')' then 1 else 0)
      + prefixDepth rest i

/-- IEEE equality against a finite value holds exactly for that value
(`sign` never returns an infinity, so this settles all its comparisons). -/
theorem beq_fin_iff (u : Dbl) (v : ℚ) :
    beq u (Dbl.fin v) = true ↔ u = Dbl.fin v := by
  cases u <;> simp [Dbl.beq]

/-- IEEE equality against a finite value is false for any other value. -/
theorem beq_fin_eq_false_of_ne (u : Dbl) (v : ℚ) (h : u ≠ Dbl.fin v) :
    beq u (Dbl.fin v) = false := by
  cases hb : beq u (Dbl.fin v)
  · rfl
  · exact absurd ((beq_fin_iff _ _).mp hb) h

/-- Concrete IEEE comparisons used to settle the sign checks. -/
theorem beq_zero_zero : beq (Dbl.fin 0) (Dbl.fin 0) = true := by
  with_unfolding_all decide

theorem beq_one_zero : beq (Dbl.fin 1) (Dbl.fin 0) = false := by
  with_unfolding_all decide

theorem beq_negone_zero : beq (Dbl.fin (-1)) (Dbl.fin 0) = false := by
  with_unfolding_all decide

theorem beq_one_one : beq (Dbl.fin 1) (Dbl.fin 1) = true := by
  with_unfolding_all decide

theorem beq_negone_negone : beq (Dbl.fin (-1)) (Dbl.fin (-1)) = true := by
  with_unfolding_all decide

/-- C2: the finite-difference primitives use the fixed step `h = 0.01`,
the first derivative is the central difference `(f(x+h) - f(x-h))/(2h)`,
and the second derivative is the second difference
`f(x+h) - 2 f(x) + f(x-h)` divided by `2h` — not by `h²`: on
`f(x) = x·x` at `0` it yields `1/100` where the `h²` scaling would give
`2`. -/
theorem finite_difference_primitives_spec :
    hD = Dbl.fin (1 / 100)
    ∧ (∀ f x, finite_difference_derivative f x
        = div (sub (f (add x hD)) (f (sub x hD))) (mul (Dbl.fin 2) hD))
    ∧ (∀ f x, finite_difference_second_derivative f x
        = div (add (sub (f (add x hD)) (mul (Dbl.fin 2) (f x)))
            (f (sub x hD)))
          (mul (Dbl.fin 2) hD))
    ∧ finite_difference_second_derivative (fun x => mul x x) (Dbl.fin 0)
        = Dbl.fin (1 / 100)
    ∧ finite_difference_second_derivative (fun x => mul x x) (Dbl.fin 0)
        ≠ div (get_second_difference (fun x => mul x x) (Dbl.fin 0))
            (mul hD hD) :=
  ⟨rfl, fun _ _ => rfl, fun _ _ => rfl, by with_unfolding_all decide,
    by with_unfolding_all decide⟩

/-- C3: the dichotomy method returns `x1` at once when `f(x1)` has sign
zero, returns `x2` at once when `f(x1)` does not and `f(x2)` does, and
returns the NaN sentinel when both endpoint values have the same nonzero
sign — in all cases with an empty report trace (no iteration). -/
theorem dichotomy_endpoints_spec (f : Dbl → Dbl) (prec x1 x2 : Dbl)
    (ms : ℕ) :
    (sign (f x1) = Dbl.fin 0 →
      run_dichotomy_method f prec x1 x2 ms = (x1, []))
    ∧ (sign (f x1) ≠ Dbl.fin 0 → sign (f x2) = Dbl.fin 0 →
      run_dichotomy_method f prec x1 x2 ms = (x2, []))
    ∧ ((sign (f x1) = Dbl.fin 1 ∧ sign (f x2) = Dbl.fin 1)
        ∨ (sign (f x1) = Dbl.fin (-1) ∧ sign (f x2) = Dbl.fin (-1)) →
      run_dichotomy_method f prec x1 x2 ms = (Dbl.nan, [])) := by
  refine ⟨fun h1 => ?_, fun h1 h2 => ?_, fun h => ?_⟩
  · simp [run_dichotomy_method, h1, beq_zero_zero]
  · simp [run_dichotomy_method, beq_fin_eq_false_of_ne _ _ h1, h2,
      beq_zero_zero]
  · rcases h with ⟨h1, h2⟩ | ⟨h1, h2⟩
    · simp [run_dichotomy_method, h1, h2, beq_one_zero, beq_one_one]
    · simp [run_dichotomy_method, h1, h2, beq_negone_zero,
        beq_negone_negone]

/-- Witness for `dichotomy_endpoints_spec` at `f(x) = x` over `[0, 5]`
and `[5, 0]`, and at the constant `7` over `[0, 5]`. -/
theorem dichotomy_endpoints_spec_witness :
    run_dichotomy_method (fun x => x) (Dbl.fin 1) (Dbl.fin 0) (Dbl.fin 5) 3
      = (Dbl.fin 0, [])
    ∧ run_dichotomy_method (fun x => x) (Dbl.fin 1) (Dbl.fin 5) (Dbl.fin 0)
        3 = (Dbl.fin 0, [])
    ∧ run_dichotomy_method (fun _ => Dbl.fin 7) (Dbl.fin 1) (Dbl.fin 0)
        (Dbl.fin 5) 3 = (Dbl.nan, []) :=
  ⟨(dichotomy_endpoints_spec (fun x => x) (Dbl.fin 1) (Dbl.fin 0)
      (Dbl.fin 5) 3).1 (by with_unfolding_all decide),
   (dichotomy_endpoints_spec (fun x => x) (Dbl.fin 1) (Dbl.fin 5)
      (Dbl.fin 0) 3).2.1 (by with_unfolding_all decide)
      (by with_unfolding_all decide),
   (dichotomy_endpoints_spec (fun _ => Dbl.fin 7) (Dbl.fin 1) (Dbl.fin 0)
      (Dbl.fin 5) 3).2.2
      (Or.inl ⟨by with_unfolding_all decide, by with_unfolding_all decide⟩)⟩

/-- C10: when the two finite-difference endpoint derivatives compare equal
(IEEE `==` on their signs) and the maximum of their absolute values is
exactly zero, the simple-iterations method returns the NaN sentinel with
an empty report trace — before choosing a starting point, reporting, or
iterating. -/
theorem simple_iterations_zero_derivative_spec (f : Dbl → Dbl)
    (prec x1 x2 : Dbl) (ms : ℕ)
    (h1 : beq (sign (finite_difference_derivative f x1))
      (sign (finite_difference_derivative f x2)) = true)
    (h2 : maxD (copysignD (finite_difference_derivative f x1) (Dbl.fin 1))
      (copysignD (finite_difference_derivative f x2) (Dbl.fin 1))
      = Dbl.fin 0) :
    run_simple_iterations_method f prec x1 x2 ms = (Dbl.nan, []) := by
  simp [run_simple_iterations_method, h1, h2, beq_zero_zero]

/-- Witness for `simple_iterations_zero_derivative_spec` at the constant
function `5` over `[0, 1]`. -/
theorem simple_iterations_zero_derivative_spec_witness :
    run_simple_iterations_method (fun _ => Dbl.fin 5) (Dbl.fin 1)
      (Dbl.fin 0) (Dbl.fin 1) 10 = (Dbl.nan, []) :=
  simple_iterations_zero_derivative_spec (fun _ => Dbl.fin 5) (Dbl.fin 1)
    (Dbl.fin 0) (Dbl.fin 1) 10 (by with_unfolding_all decide)
    (by with_unfolding_all decide)

/-- C4 counterexample: with `max_steps = 0`, the dichotomy method on
`f(x) = x` over `[0, 1]` returns the endpoint `0`, not the NaN failure
sentinel, because the exact-zero endpoint check precedes the step-budget
check. -/
theorem max_steps_zero_dichotomy_counterexample :
    run_dichotomy_method (fun x => x) (Dbl.fin 1) (Dbl.fin 0) (Dbl.fin 1) 0
      = (Dbl.fin 0, [])
    ∧ (Dbl.fin 0 : Dbl) ≠ Dbl.nan := by
  with_unfolding_all decide

/-- C4 (amended): with `max_steps = 0` the secant, chord, Newton, Halley
and simple-iterations methods return the NaN sentinel for every input
(simple iterations may first report its starting point as step 0, but
performs no loop iteration: every report it makes has step index 0), and
the dichotomy method does so whenever neither endpoint value has sign
zero; when one does, it returns that endpoint instead, still without
iterating. -/
theorem max_steps_zero_spec (f : Dbl → Dbl) (prec x1 x2 x0 : Dbl) :
    run_secant_method f prec x1 x2 0 = (Dbl.nan, [])
    ∧ run_chord_method f prec x1 x2 0 = (Dbl.nan, [])
    ∧ run_newthon_method f prec x0 0 = (Dbl.nan, [])
    ∧ run_halley_method f prec x0 0 = (Dbl.nan, [])
    ∧ (run_simple_iterations_method f prec x1 x2 0).1 = Dbl.nan
    ∧ (∀ r ∈ (run_simple_iterations_method f prec x1 x2 0).2, r.step = 0)
    ∧ (sign (f x1) ≠ Dbl.fin 0 → sign (f x2) ≠ Dbl.fin 0 →
        run_dichotomy_method f prec x1 x2 0 = (Dbl.nan, [])) := by
  refine ⟨rfl, ?_, rfl, rfl, ?_, ?_, fun h1 h2 => ?_⟩
  · unfold run_chord_method
    split <;> rfl
  · simp only [run_simple_iterations_method]
    split
    · rfl
    · split
      · rfl
      · rfl
  · simp only [run_simple_iterations_method]
    split
    · intro r hr
      simp at hr
    · split
      · intro r hr
        simp at hr
      · intro r hr
        simp only [simpleIterLoop, List.mem_cons, List.not_mem_nil,
          or_false] at hr
        rw [hr]
  · simp only [run_dichotomy_method, beq_fin_eq_false_of_ne _ _ h1,
      beq_fin_eq_false_of_ne _ _ h2, Bool.false_eq_true, if_false]
    split
    · rfl
    · split <;> rfl

/-- Witness for `max_steps_zero_spec` at `f(x) = x` over `[1, 2]`. -/
theorem max_steps_zero_spec_witness :
    run_secant_method (fun x => x) (Dbl.fin 1) (Dbl.fin 1) (Dbl.fin 2) 0
      = (Dbl.nan, [])
    ∧ run_dichotomy_method (fun x => x) (Dbl.fin 1) (Dbl.fin 1) (Dbl.fin 2)
        0 = (Dbl.nan, []) :=
  ⟨(max_steps_zero_spec (fun x => x) (Dbl.fin 1) (Dbl.fin 1) (Dbl.fin 2)
      (Dbl.fin 1)).1,
   (max_steps_zero_spec (fun x => x) (Dbl.fin 1) (Dbl.fin 1) (Dbl.fin 2)
      (Dbl.fin 1)).2.2.2.2.2.2 (by with_unfolding_all decide)
      (by with_unfolding_all decide)⟩

/-- C9: after the initial arrangement, the dichotomy loop starts from a
pair whose function values have signs `+1` and `-1` respectively, and one
loop iteration that continues always replaces the endpoint whose function
value has the same sign as the midpoint value, preserving that invariant
(so the root stays bracketed). -/
theorem dichotomy_invariant_spec (f : Dbl → Dbl) (prec x1 x2 : Dbl)
    (ms : ℕ)
    (h : sign (f x1) = Dbl.fin 1 ∧ sign (f x2) = Dbl.fin (-1)
      ∨ sign (f x1) = Dbl.fin (-1) ∧ sign (f x2) = Dbl.fin 1) :
    (run_dichotomy_method f prec x1 x2 ms
      = if beq (sign (f x1)) (Dbl.fin 1) = true
        then dichotomyLoop f prec ms 0 x1 x2
        else dichotomyLoop f prec ms 0 x2 x1)
    ∧ (if beq (sign (f x1)) (Dbl.fin 1) = true
        then sign (f x1) = Dbl.fin 1 ∧ sign (f x2) = Dbl.fin (-1)
        else sign (f x2) = Dbl.fin 1 ∧ sign (f x1) = Dbl.fin (-1))
    ∧ (∀ y1 y2 stp a b tr,
        sign (f y1) = Dbl.fin 1 → sign (f y2) = Dbl.fin (-1) →
        dichotomy_step f prec stp y1 y2 = (DichoStep.next a b, tr) →
        sign (f a) = Dbl.fin 1 ∧ sign (f b) = Dbl.fin (-1)) := by
  have hone : beq (Dbl.fin (-1)) (Dbl.fin 1) = false := by
    with_unfolding_all decide
  have hone2 : beq (Dbl.fin 1) (Dbl.fin (-1)) = false := by
    with_unfolding_all decide
  refine ⟨?_, ?_, ?_⟩
  · rcases h with ⟨h1, h2⟩ | ⟨h1, h2⟩
    · simp [run_dichotomy_method, h1, h2, beq_one_zero, beq_negone_zero,
        beq_one_one, hone2]
    · simp [run_dichotomy_method, h1, h2, beq_one_zero, beq_negone_zero,
        beq_negone_negone, hone]
  · rcases h with ⟨h1, h2⟩ | ⟨h1, h2⟩
    · simp [h1, h2, beq_one_one]
    · simp [h1, h2, hone]
  · intro y1 y2 stp a b tr hy1 hy2 hstep
    simp only [dichotomy_step] at hstep
    split at hstep
    · exact absurd (congrArg Prod.fst hstep) (by simp)
    · split at hstep
      · exact absurd (congrArg Prod.fst hstep) (by simp)
      · split at hstep
        · rename_i hmid
          obtain ⟨ha, hb⟩ : a = div (add y1 y2) (Dbl.fin 2) ∧ b = y2 := by
            have := congrArg Prod.fst hstep
            simp at this
            exact ⟨this.1.symm, this.2.symm⟩
          subst ha hb
          exact ⟨(beq_fin_iff _ _).mp hmid, hy2⟩
        · split at hstep
          · rename_i hmid
            obtain ⟨ha, hb⟩ : a = y1 ∧ b = div (add y1 y2) (Dbl.fin 2) := by
              have := congrArg Prod.fst hstep
              simp at this
              exact ⟨this.1.symm, this.2.symm⟩
            subst ha hb
            exact ⟨hy1, (beq_fin_iff _ _).mp hmid⟩
          · exact absurd (congrArg Prod.fst hstep) (by simp)

/-- Witness for `dichotomy_invariant_spec` at `f(x) = x - 1/4` over
`[1, -1]`: the first iteration replaces the negative-value endpoint by the
midpoint `0`, keeping the bracket signs `(+1, -1)`. -/
theorem dichotomy_invariant_spec_witness :
    sign ((fun x => sub x (Dbl.fin (1 / 4))) (Dbl.fin 1)) = Dbl.fin 1
    ∧ sign ((fun x => sub x (Dbl.fin (1 / 4))) (Dbl.fin 0))
      = Dbl.fin (-1) :=
  (dichotomy_invariant_spec (fun x => sub x (Dbl.fin (1 / 4)))
    (Dbl.fin (1 / 100)) (Dbl.fin 1) (Dbl.fin (-1)) 5
    (Or.inl ⟨by with_unfolding_all decide, by with_unfolding_all decide⟩)
    ).2.2 (Dbl.fin 1) (Dbl.fin (-1)) 1 (Dbl.fin 1) (Dbl.fin 0)
    [⟨1, Dbl.fin 0, Dbl.fin (-(1 / 4))⟩]
    (by with_unfolding_all decide) (by with_unfolding_all decide)
    (by with_unfolding_all decide)

set_option maxHeartbeats 2000000 in
/-- C5: `"2 + 3 * 4"` evaluates to `14` and `"2 * 3 + 4"` to `10` at any
argument (multiplication outranks addition); `"2 ^ 3 ^ 2"` evaluates to
`512` (right-to-left effective grouping), and `takes_precedence` makes
power outrank every operator, in particular any operator to its left.
The `pow` hypotheses record the exact values the C `pow` returns on the
integer inputs this evaluation reaches. -/
theorem precedence_eval_spec (env : CMath) (arg : Dbl)
    (hp1 : env.pow (Dbl.fin 3) (Dbl.fin 2) = Dbl.fin 9)
    (hp2 : env.pow (Dbl.fin 2) (Dbl.fin 9) = Dbl.fin 512) :
    evalFormula env (mkFormula "2 + 3 * 4".toList) arg = Dbl.fin 14
    ∧ evalFormula env (mkFormula "2 * 3 + 4".toList) arg = Dbl.fin 10
    ∧ evalFormula env (mkFormula "2 ^ 3 ^ 2".toList) arg = Dbl.fin 512
    ∧ (∀ op, takes_precedence BinOp.powOp op = true) := by
  refine ⟨?_, ?_, ?_, fun op => by cases op <;> rfl⟩ <;>
  · simp only [show ("2 + 3 * 4".toList)
        = ['2', ' ', '+', ' ', '3', ' ', '*', ' ', '4'] from rfl,
      show ("2 * 3 + 4".toList)
        = ['2', ' ', '*', ' ', '3', ' ', '+', ' ', '4'] from rfl,
      show ("2 ^ 3 ^ 2".toList)
        = ['2', ' ', '^', ' ', '3', ' ', '^', ' ', '2'] from rfl]
    simp [evalFormula, mkFormula, isblankC, parseFuel, parse_expression,
      try_parse_binary_expr, binary_tail, try_parse_operand,
      try_parse_function, try_parse_nested_expression, try_parse_unary_expr,
      try_parse_literal, try_parse_variable, try_match_dictionary,
      fromCharsD, scanDigits, scanExponent, digitVal, functions,
      binary_operators, BinOp.apply, applyFunc, takes_precedence,
      operator_precedence, is_unary_operator, Dbl.add, Dbl.mul, Dbl.sub,
      Dbl.neg, Dbl.div]
    norm_num [hp1, hp2, Dbl.add, Dbl.mul]

/-- Witness for `precedence_eval_spec` with the concrete environment whose
`pow` is exact integer power. -/
theorem precedence_eval_spec_witness :
    evalFormula stubMath (mkFormula "2 ^ 3 ^ 2".toList) (Dbl.fin 0)
      = Dbl.fin 512 :=
  (precedence_eval_spec stubMath (Dbl.fin 0) (by decide!)
    (by decide!)).2.2.1

set_option maxHeartbeats 2000000 in
/-- C6: `op_divide_integer` is `trunc(a / b * (1 + 2 * DBL_EPSILON))`;
the operator matcher recognizes a leading `//` as that single operator
consuming both characters (not as `/` twice); and evaluating `"7 // 2"`
applies it to the operands `7` and `2` — the parse trace is exactly one
`op_divide_integer` invocation on `7` and `2` — producing `3`. -/
theorem integer_division_spec (env : CMath) (arg : Dbl) :
    (∀ a b, BinOp.apply env BinOp.divInt a b
      = truncD (mul (div a b) (add (Dbl.fin 1) (mul (Dbl.fin 2) epsD))))
    ∧ (∀ (s : List Char) (pos : ℕ), (s.drop pos).take 2 = ['/', '/'] →
        try_match_dictionary binary_operators s pos []
          = some (BinOp.divInt, pos + 2))
    ∧ evalFormula env (mkFormula "7 // 2".toList) arg = Dbl.fin 3
    ∧ (parse_expression ⟨env, mkFormula "7 // 2".toList, arg, false⟩
        (parseFuel (mkFormula "7 // 2".toList)) 0).evs
      = [Event.binApp BinOp.divInt (Dbl.fin 7) (Dbl.fin 2)] := by
  refine ⟨fun a b => rfl, ?_, ?_, ?_⟩
  · intro s pos hpre
    have hlen : 2 ≤ s.length - pos := by
      have h1 := congrArg List.length hpre
      rw [List.length_take, List.length_drop] at h1
      simp at h1
      omega
    simp only [binary_operators, try_match_dictionary, List.length_cons,
      List.length_nil, List.take_zero, List.length_singleton]
    rw [if_neg (by omega), if_pos ⟨hpre, by simp⟩]
  · simp only [show ("7 // 2".toList)
        = ['7', ' ', '/', '/', ' ', '2'] from rfl]
    simp [evalFormula, mkFormula, isblankC, parseFuel, parse_expression,
      try_parse_binary_expr, binary_tail, try_parse_operand,
      try_parse_function, try_parse_nested_expression, try_parse_unary_expr,
      try_parse_literal, try_parse_variable, try_match_dictionary,
      fromCharsD, scanDigits, scanExponent, digitVal, functions,
      binary_operators, BinOp.apply, applyFunc, takes_precedence,
      operator_precedence, is_unary_operator, epsD, Dbl.add, Dbl.mul,
      Dbl.sub, Dbl.neg, Dbl.div, Dbl.truncD]
    all_goals norm_num
    all_goals decide!
  · simp only [show ("7 // 2".toList)
        = ['7', ' ', '/', '/', ' ', '2'] from rfl]
    simp [mkFormula, isblankC, parseFuel, parse_expression,
      try_parse_binary_expr, binary_tail, try_parse_operand,
      try_parse_function, try_parse_nested_expression, try_parse_unary_expr,
      try_parse_literal, try_parse_variable, try_match_dictionary,
      fromCharsD, scanDigits, scanExponent, digitVal, functions,
      binary_operators, BinOp.apply, applyFunc, takes_precedence,
      operator_precedence, is_unary_operator, Dbl.div]

/-- Witness for `integer_division_spec`: the matcher consumes both
slashes of `"a//b"` at position 1, and `"7 // 2"` evaluates to `3`. -/
theorem integer_division_spec_witness :
    try_match_dictionary binary_operators ['a', '/', '/', 'b'] 1 []
      = some (BinOp.divInt, 3)
    ∧ evalFormula stubMath (mkFormula "7 // 2".toList) (Dbl.fin 0)
      = Dbl.fin 3 :=
  ⟨(integer_division_spec stubMath (Dbl.fin 0)).2.1 ['a', '/', '/', 'b'] 1
    (by decide),
   (integer_division_spec stubMath (Dbl.fin 0)).2.2.1⟩

/-- C7: at a nonempty position, `parse_expression` returns the
binary-expression result whenever that alternative succeeds; the
function-call result when binary fails and function succeeds; and only
when both have failed does it return the unary alternative's outcome.  A
recognized unary sign is followed by a full `parse_expression` of the
rest: the sign applies to the entire following expression (negating it
for `-`). -/
theorem parse_expression_alternative_order (P : PCtx) (fuel pos : ℕ)
    (hne : (P.s.drop pos).isEmpty = false) :
    ((try_parse_binary_expr P fuel none pos).ok = true →
      parse_expression P (fuel + 1) pos
        = try_parse_binary_expr P fuel none pos)
    ∧ ((try_parse_binary_expr P fuel none pos).ok = false →
        (try_parse_function P fuel pos).ok = true →
      parse_expression P (fuel + 1) pos
        = ⟨true, (try_parse_function P fuel pos).val,
            (try_parse_function P fuel pos).pos,
            (try_parse_binary_expr P fuel none pos).evs
              ++ (try_parse_function P fuel pos).evs⟩)
    ∧ ((try_parse_binary_expr P fuel none pos).ok = false →
        (try_parse_function P fuel pos).ok = false →
      parse_expression P (fuel + 1) pos
        = ⟨(try_parse_unary_expr P fuel pos).ok,
            (try_parse_unary_expr P fuel pos).val,
            (try_parse_unary_expr P fuel pos).pos,
            (try_parse_binary_expr P fuel none pos).evs
              ++ (try_parse_function P fuel pos).evs
              ++ (try_parse_unary_expr P fuel pos).evs⟩)
    ∧ (∀ c rest, P.s.drop pos = c :: rest → is_unary_operator c = true →
        try_parse_unary_expr P (fuel + 1) pos
          = ⟨(parse_expression P fuel (pos + 1)).ok,
              if (parse_expression P fuel (pos + 1)).ok && c = '-'
                then Dbl.neg (parse_expression P fuel (pos + 1)).val
                else (parse_expression P fuel (pos + 1)).val,
              (parse_expression P fuel (pos + 1)).pos,
              (parse_expression P fuel (pos + 1)).evs⟩) := by
  refine ⟨fun hb => ?_, fun hb hf => ?_, fun hb hf => ?_,
    fun c rest hc hu => ?_⟩
  · simp [parse_expression, hne, hb]
  · simp [parse_expression, hne, hb, hf]
  · simp [parse_expression, hne, hb, hf]
  · simp [try_parse_unary_expr, hc, hu]

/-- Witness for `parse_expression_alternative_order` on the text `"+1"`,
where the binary and function alternatives fail and the unary alternative
parses the whole rest. -/
theorem parse_expression_alternative_order_witness :
    parse_expression ⟨stubMath, ['+', '1'], Dbl.fin 0, false⟩ 11 0
      = ⟨true, Dbl.fin 1, 2, []⟩
    ∧ try_parse_unary_expr ⟨stubMath, ['+', '1'], Dbl.fin 0, false⟩ 11 0
      = ⟨true, Dbl.fin 1, 2, []⟩ :=
  ⟨((parse_expression_alternative_order
      ⟨stubMath, ['+', '1'], Dbl.fin 0, false⟩ 10 0 (by decide)).2.2.1
      (by decide!) (by decide!)).trans (by decide!),
   ((parse_expression_alternative_order
      ⟨stubMath, ['+', '1'], Dbl.fin 0, false⟩ 10 0 (by decide)).2.2.2
      '+' ['1'] (by decide) (by decide)).trans (by decide!)⟩

/-- Unfolding lemma for `prefixDepth` on a cons cell. -/
theorem prefixDepth_cons (c : Char) (rest : List Char) (i : ℕ) :
    prefixDepth (c :: rest) (i + 1)
      = (if c = '(' then 1 else 0) - (if c = ')' then 1 else 0)
        + prefixDepth rest i := rfl

/-- The final depth computed by `validate`'s fold equals the prefix depth
of the whole text. -/
theorem parenDepth_eq_prefixDepth (l : List Char) :
    parenDepth l = prefixDepth l l.length := by
  suffices h : ∀ (l : List Char) (d : ℤ),
      l.foldl (fun d c => d + (if c = '(' then 1 else 0)
        - (if c = ')' then 1 else 0)) d
      = d + prefixDepth l l.length by
    have := h l 0
    simpa [parenDepth] using this
  intro l
  induction l with
  | nil => intro d; simp [prefixDepth]
  | cons c rest ih =>
    intro d
    rw [List.foldl_cons, ih, List.length_cons, prefixDepth_cons]
    ring

/-- Unfolding lemma for `findUnexpectedClose` on a cons cell. -/
theorem findUnexpectedClose_cons (c : Char) (rest : List Char) (d : ℤ) :
    findUnexpectedClose (c :: rest) d
      = if d + (if c = '(' then 1 else 0) - (if c = ')' then 1 else 0) < 0
        then some 0
        else (findUnexpectedClose rest
          (d + (if c = '(' then 1 else 0)
            - (if c = ')' then 1 else 0))).map (· + 1) := rfl

/-- The depth of the empty prefix is zero. -/
theorem prefixDepth_zero (l : List Char) : prefixDepth l 0 = 0 := by
  cases l <;> rfl

/-- If the scan finds no offending `)`, every proper prefix has
nonnegative depth (relative to the starting depth). -/
theorem findUnexpectedClose_none_spec (l : List Char) :
    ∀ (d : ℤ), findUnexpectedClose l d = none → 0 ≤ d →
      ∀ i < l.length, 0 ≤ d + prefixDepth l (i + 1) := by
  induction l with
  | nil =>
    intro d _ _ i hi
    simp at hi
  | cons c rest ih =>
    intro d h hd i hi
    rw [findUnexpectedClose_cons] at h
    by_cases hneg : d + (if c = '(' then (1 : ℤ) else 0)
        - (if c = ')' then 1 else 0) < 0
    · rw [if_pos hneg] at h
      exact absurd h (by simp)
    · rw [if_neg hneg] at h
      cases hr : findUnexpectedClose rest
          (d + (if c = '(' then 1 else 0)
            - (if c = ')' then 1 else 0)) with
      | some j =>
        rw [hr] at h
        exact absurd h (by simp)
      | none =>
        rcases i with _ | i
        · rw [prefixDepth_cons, prefixDepth_zero]
          omega
        · rw [prefixDepth_cons]
          have := ih _ hr (by omega) i (by simpa using hi)
          omega

/-- If the scan reports index `j`, then `j` is in range, the depth first
becomes negative exactly at `j`, and the character there is `)`. -/
theorem findUnexpectedClose_some_spec (l : List Char) :
    ∀ (d : ℤ) (j : ℕ), findUnexpectedClose l d = some j → 0 ≤ d →
      j < l.length ∧ d + prefixDepth l (j + 1) < 0
      ∧ (∀ k < j, 0 ≤ d + prefixDepth l (k + 1))
      ∧ l[j]? = some ')' := by
  induction l with
  | nil =>
    intro d j h _
    simp [findUnexpectedClose] at h
  | cons c rest ih =>
    intro d j h hd
    rw [findUnexpectedClose_cons] at h
    by_cases hneg : d + (if c = '(' then (1 : ℤ) else 0)
        - (if c = ')' then 1 else 0) < 0
    · rw [if_pos hneg] at h
      have hj : j = 0 := by
        injection h with h1
        exact h1.symm
      subst hj
      have hc : c = ')' := by
        by_contra hcc
        rw [if_neg hcc] at hneg
        by_cases hc2 : c = '(' <;>
          [rw [if_pos hc2] at hneg; rw [if_neg hc2] at hneg] <;> omega
      subst hc
      refine ⟨by simp, ?_, fun k hk => absurd hk (Nat.not_lt_zero k),
        by simp⟩
      rw [prefixDepth_cons, prefixDepth_zero]
      omega
    · rw [if_neg hneg] at h
      cases hr : findUnexpectedClose rest
          (d + (if c = '(' then 1 else 0)
            - (if c = ')' then 1 else 0)) with
      | none =>
        rw [hr] at h
        exact absurd h (by simp)
      | some j' =>
        rw [hr] at h
        simp only [Option.map_some'] at h
        have hj : j = j' + 1 := by
          injection h with h1
          exact h1.symm
        subst hj
        obtain ⟨h1, h2, h3, h4⟩ := ih _ _ hr (by omega)
        refine ⟨by simp only [List.length_cons]; omega, ?_, ?_,
          by simpa using h4⟩
        · rw [prefixDepth_cons]
          omega
        · intro k hk
          rcases k with _ | k
          · rw [prefixDepth_cons, prefixDepth_zero]
            omega
          · rw [prefixDepth_cons]
            have := h3 k (by omega)
            omega

/-- C8: on text whose parentheses are mismatched, `validate` fails before
any parsing.  If some prefix drives the nesting depth negative, the error
is `"unexpected ')'"` and the reported position is the first index where
that happens — an in-range index holding a `)`.  Otherwise, if the final
depth is nonzero, the error is `"no ')' to match '('"` at position
`length` (the end-of-string pointer).  Either way the position is an
index into the stored expression text. -/
theorem validate_mismatched_parens_spec (env : CMath) (l : List Char) :
    ((∃ i < l.length, prefixDepth l (i + 1) < 0) →
      (validate env l).ok = false
      ∧ (validate env l).err_msg = "unexpected ')'"
      ∧ (validate env l).err_pos < l.length
      ∧ prefixDepth l ((validate env l).err_pos + 1) < 0
      ∧ (∀ k < (validate env l).err_pos, 0 ≤ prefixDepth l (k + 1))
      ∧ l[(validate env l).err_pos]? = some ')')
    ∧ ((∀ i < l.length, 0 ≤ prefixDepth l (i + 1)) →
        prefixDepth l l.length ≠ 0 →
        (validate env l).ok = false
        ∧ (validate env l).err_msg = "no ')' to match '('"
        ∧ (validate env l).err_pos = l.length) := by
  constructor
  · rintro ⟨i, hi, hneg⟩
    cases hfind : findUnexpectedClose l 0 with
    | none =>
      have := findUnexpectedClose_none_spec l 0 hfind le_rfl i hi
      omega
    | some j =>
      obtain ⟨h1, h2, h3, h4⟩ :=
        findUnexpectedClose_some_spec l 0 j hfind le_rfl
      have hv : validate env l = ⟨false, "unexpected ')'", j, []⟩ := by
        simp [validate, hfind]
      rw [hv]
      exact ⟨rfl, rfl, h1, by simpa using h2, fun k hk => by
        simpa using h3 k hk, h4⟩
  · intro hnn hne
    have hfind : findUnexpectedClose l 0 = none := by
      cases hfind : findUnexpectedClose l 0 with
      | none => rfl
      | some j =>
        obtain ⟨h1, h2, _, _⟩ :=
          findUnexpectedClose_some_spec l 0 j hfind le_rfl
        have := hnn j h1
        omega
    have hv : validate env l
        = ⟨false, "no ')' to match '('", l.length, []⟩ := by
      rw [validate, hfind]
      rw [if_pos]
      rw [parenDepth_eq_prefixDepth]
      exact hne
    rw [hv]
    exact ⟨rfl, rfl, rfl⟩

/-- Witness for `validate_mismatched_parens_spec`: `"(1))"` fails with the
position on the second `)` (index 3), and `"((1)"` fails at end-of-string
(index 4 = length). -/
theorem validate_mismatched_parens_spec_witness :
    (validate stubMath ['(', '1', ')', ')']).ok = false
    ∧ ['(', '1', ')', ')'][(validate stubMath
        ['(', '1', ')', ')']).err_pos]? = some ')'
    ∧ (validate stubMath ['(', '(', '1', ')']).ok = false
    ∧ (validate stubMath ['(', '(', '1', ')']).err_pos
      = (['(', '(', '1', ')'] : List Char).length :=
  ⟨((validate_mismatched_parens_spec stubMath ['(', '1', ')', ')']).1
      ⟨3, by decide, by decide⟩).1,
   ((validate_mismatched_parens_spec stubMath ['(', '1', ')', ')']).1
      ⟨3, by decide, by decide⟩).2.2.2.2.2,
   ((validate_mismatched_parens_spec stubMath ['(', '(', '1', ')']).2
      (by decide) (by decide)).1,
   ((validate_mismatched_parens_spec stubMath ['(', '(', '1', ')']).2
      (by decide) (by decide)).2.2⟩

/-- Literal parsing records no invocations. -/
theorem try_parse_literal_evs (P : PCtx) (pos : ℕ) :
    (try_parse_literal P pos).evs = [] := by
  rw [try_parse_literal]
  split <;> rfl

/-- Variable parsing records no invocations. -/
theorem try_parse_variable_evs (P : PCtx) (pos : ℕ) :
    (try_parse_variable P pos).evs = [] := by
  rw [try_parse_variable]
  split
  · rfl
  · split <;> rfl

/-- Appending traces preserves the absence of function invocations. -/
theorem all_noFun_append (l1 l2 : List Event)
    (h1 : l1.all (fun e => !e.isFunApp) = true)
    (h2 : l2.all (fun e => !e.isFunApp) = true) :
    (l1 ++ l2).all (fun e => !e.isFunApp) = true := by
  simp only [List.all_append, Bool.and_eq_true]
  exact ⟨h1, h2⟩

/-- A lone binary-operator invocation is not a function invocation. -/
theorem all_noFun_binApp (op : BinOp) (a b : Dbl) :
    ([Event.binApp op a b].all (fun e => !e.isFunApp)) = true := rfl

/-- In dry mode no parse function ever records a function-table
invocation, at any fuel, position and pending-operand state: the only
site that could (`try_parse_function`'s success) takes the placeholder-`0`
branch.  Binary-operator invocations are not excluded — see the
counterexample for C1. -/
theorem dry_no_funApp (P : PCtx) (hdry : P.dry = true) :
    ∀ fuel,
      (∀ pos, (try_parse_function P fuel pos).evs.all
        (fun e => !e.isFunApp) = true)
      ∧ (∀ pos, (try_parse_unary_expr P fuel pos).evs.all
        (fun e => !e.isFunApp) = true)
      ∧ (∀ pos, (try_parse_nested_expression P fuel pos).evs.all
        (fun e => !e.isFunApp) = true)
      ∧ (∀ pos, (try_parse_operand P fuel pos).evs.all
        (fun e => !e.isFunApp) = true)
      ∧ (∀ op1? pos, (try_parse_binary_expr P fuel op1? pos).evs.all
        (fun e => !e.isFunApp) = true)
      ∧ (∀ v1 op pos, (binary_tail P fuel v1 op pos).evs.all
        (fun e => !e.isFunApp) = true)
      ∧ (∀ pos, (parse_expression P fuel pos).evs.all
        (fun e => !e.isFunApp) = true) := by
  intro fuel
  induction fuel with
  | zero =>
    refine ⟨fun pos => ?_, fun pos => ?_, fun pos => ?_, fun pos => ?_,
      fun op1? pos => ?_, fun v1 op pos => ?_, fun pos => ?_⟩
    · simp only [try_parse_function]
      rfl
    · simp only [try_parse_unary_expr]
      rfl
    · simp only [try_parse_nested_expression]
      rfl
    · simp only [try_parse_operand]
      rfl
    · simp only [try_parse_binary_expr]
      rfl
    · simp only [binary_tail]
      rfl
    · simp only [parse_expression]
      rfl
  | succ n ih =>
    obtain ⟨ihf, ihu, ihn, iho, ihb, iht, ihp⟩ := ih
    refine ⟨fun pos => ?_, fun pos => ?_, fun pos => ?_, fun pos => ?_,
      fun op1? pos => ?_, fun v1 op pos => ?_, fun pos => ?_⟩ <;>
    · try rcases op1? with _ | ⟨v1x, opx⟩
      all_goals first
        | simp only [try_parse_function]
        | simp only [try_parse_unary_expr]
        | simp only [try_parse_nested_expression]
        | simp only [try_parse_operand]
        | simp only [try_parse_binary_expr]
        | simp only [binary_tail]
        | simp only [parse_expression]
      all_goals repeat' split
      all_goals first
        | rfl
        | exact ihp _
        | exact iho _
        | exact ihf _
        | exact ihn _
        | exact ihu _
        | exact ihb _ _
        | exact iht _ _ _
        | (rw [try_parse_literal_evs]; rfl)
        | (rw [try_parse_variable_evs]; rfl)
        | (rename_i hx; exact absurd hdry hx)
        | (rename_i hx; exact absurd rfl hx)
        | (rename_i hx; exact Bool.noConfusion hx)
        | exact all_noFun_append _ _ (ihf _) (ihn _)
        | exact all_noFun_append _ _ (iho _) (iht _ _ _)
        | exact all_noFun_append _ _ (iho _) (ihb _ _)
        | exact all_noFun_append _ _
            (all_noFun_append _ _ (iho _) (ihb _ _)) (all_noFun_binApp _ _ _)
        | exact all_noFun_append _ _
            (all_noFun_append _ _ (iho _) (all_noFun_binApp _ _ _)) (ihb _ _)
        | exact all_noFun_append _ _ (ihb _ _) (ihf _)
        | exact all_noFun_append _ _
            (all_noFun_append _ _ (ihb _ _) (ihf _)) (ihu _)

/-- C1 (amended): during `validate`'s dry parse, no function-table
function is ever invoked — every event in the trace is a binary-operator
invocation, never a function application. -/
theorem validate_no_function_invocation (env : CMath) (l : List Char) :
    (validate env l).evs.all (fun e => !e.isFunApp) = true := by
  have h := dry_no_funApp ⟨env, l, Dbl.nan, true⟩ rfl (parseFuel l)
  rw [validate]
  cases hfind : findUnexpectedClose l 0 with
  | some i => rfl
  | none =>
    dsimp only
    by_cases hp : parenDepth l ≠ 0
    · rw [if_pos hp]
      rfl
    · rw [if_neg hp]
      exact h.2.2.2.2.2.2 0

/-- C1 counterexample: validating `"1+2+3"` succeeds, and its dry parse
does apply a binary-operator function — the interior reduction site of
`try_parse_binary_expr` (line 536 of the source) has no dry-mode guard,
so `op_plus` is invoked on `1` and `2` during validation. -/
theorem validate_applies_binary_operator_counterexample :
    (validate stubMath (mkFormula "1+2+3".toList)).ok = true
    ∧ (validate stubMath (mkFormula "1+2+3".toList)).evs
      = [Event.binApp BinOp.plus (Dbl.fin 1) (Dbl.fin 2)] := by
  decide!
